import Mathlib

/-!
Shallow embedding of the Climate Chess infographic data pipeline
(src/src/Infographic.jsx): score delta computation, CSV row normalization,
section grouping and sorting, link extraction, the two-column snapshot
split, and the candidate-path CSV loader.

Raw CSV fields are modelled as `Option String`: `none` models a missing or
undefined column, `some s` a present string value.  JavaScript string
helpers are modelled on Lean strings; `trim`, `toLower` and character
classes act on the ASCII fragment exercised by the data, matching the
JavaScript behaviour there.
-/

namespace ClimateChess

/-- ASCII lower-casing of a character, as `String.prototype.toLowerCase`
acts on the ASCII range. -/
def lowerChar (c : Char) : Char :=
  if 'A' ≤ c && c ≤ 'Z' then Char.ofNat (c.toNat + 32) else c

/-- JS `s.toLowerCase()`. -/
def jsToLower (s : String) : String := String.mk (s.data.map lowerChar)

/-- JS `s.trim()`: strip leading and trailing whitespace. -/
def jsTrim (s : String) : String :=
  String.mk
    (((s.data.dropWhile Char.isWhitespace).reverse.dropWhile Char.isWhitespace).reverse)

/-- Split a character list at every character satisfying `p` (the segments
between delimiter characters, empty segments included). -/
def splitChars (p : Char → Bool) : List Char → List (List Char)
  | [] => [[]]
  | c :: t =>
    if p c then [] :: splitChars p t
    else
      match splitChars p t with
      | [] => [[c]]
      | h :: r => (c :: h) :: r

/-- JS `s.split(re)` for a single-character-class regex, segment-wise. -/
def jsSplit (p : Char → Bool) (s : String) : List String :=
  (splitChars p s.data).map String.mk

/-- Lexicographic (code-point) comparison of character lists:
`charsLE a b` holds when `a` is at or before `b`. -/
def charsLE : List Char → List Char → Bool
  | [], _ => true
  | _ :: _, [] => false
  | a :: as, b :: bs =>
    if a < b then true
    else if b < a then false
    else charsLE as bs

/-- JS helper `clean(v) = String(v ?? "").trim()`. -/
def clean (v : Option String) : String := jsTrim (v.getD "")

/-- JS helper `yesish(v) = ["yes","y","true","1"].includes(clean(v).toLowerCase())`. -/
def yesish (v : Option String) : Bool :=
  ["yes", "y", "true", "1"].contains (jsToLower (clean v))

/-- JS `v || d` on an optional string: a missing or empty (falsy) value picks
the default `d`, any other string is kept. -/
def jsOr (v : Option String) (d : String) : String :=
  match v with
  | none => d
  | some s => if s = "" then d else s

/-- The `SCORE_VALUE` lookup table: the fixed ordinal mapping of the seven
score levels; any other key is absent (JS property access gives `undefined`). -/
def SCORE_VALUE (s : String) : Option Int :=
  if s = "plus-3" then some 3
  else if s = "plus-2" then some 2
  else if s = "plus-1" then some 1
  else if s = "zero" then some 0
  else if s = "minus-1" then some (-1)
  else if s = "minus-2" then some (-2)
  else if s = "minus-3" then some (-3)
  else none

/-- `computeDelta(cur, prev)`:
`c = SCORE_VALUE[cur ?? "zero"] ?? 0; p = SCORE_VALUE[prev ?? cur ?? "zero"] ?? 0; c - p`.
The JS `??` (nullish coalescing) falls through only on `null`/`undefined`,
modelled by `Option.orElse` (`<|>`); an empty string does NOT fall through. -/
def computeDelta (cur prev : Option String) : Int :=
  let c := (SCORE_VALUE (cur.getD "zero")).getD 0
  let p := (SCORE_VALUE ((prev <|> cur).getD "zero")).getD 0
  c - p

/-- Decimal digit characters to a natural number. -/
def digitsToNat (l : List Char) : Nat :=
  l.foldl (fun n c => n * 10 + (c.toNat - 48)) 0

/-- JS `parseInt(s, 10)` on an already-trimmed string: optional sign, then the
longest prefix of decimal digits; `none` models `NaN` (no digits found).
`Number.isFinite` then rejects exactly the `NaN` case. -/
def parseIntBase10 (s : String) : Option Int :=
  let signRest : Int × List Char :=
    match s.data with
    | '-' :: t => (-1, t)
    | '+' :: t => (1, t)
    | t => (1, t)
  let digits := signRest.2.takeWhile Char.isDigit
  if digits = [] then none
  else some (signRest.1 * (digitsToNat digits : Int))

/-- A raw CSV record: an untyped mapping of the recognized column names to
optional string values. -/
structure Raw where
  Team : Option String := none
  Piece : Option String := none
  Order : Option String := none
  Include : Option String := none
  Score_Current : Option String := none
  Score_Previous : Option String := none
  Summary_Current : Option String := none
  Links : Option String := none
  Header_Flag : Option String := none
deriving DecidableEq, Repr

/-- A canonical row produced by `normalizeRow`. -/
structure Row where
  Team : String
  Piece : String
  Include : String
  Header_Flag : String
  Score_Current : String
  Score_Previous : String
  Summary_Current : String
  Links : String
  Order : Int
deriving DecidableEq, Repr

/-- `normalizeRow(r)` from src/src/Infographic.jsx:
trims identity fields, tolerantly parses `Include` (blank defaults to "yes")
and `Header_Flag`, lower-cases scores (blank current score becomes "zero"),
parses `Order` with sentinel 9999 on failure, and returns `null` (here
`none`) when `Team` or `Piece` is empty after trimming. -/
def normalizeRow (r : Raw) : Option Row :=
  let Team := clean r.Team
  let Piece := clean r.Piece
  let Include := if yesish (some (jsOr r.Include "yes")) then "yes" else "no"
  let Header_Flag := if yesish r.Header_Flag then "yes" else "no"
  let Score_Current := jsOr (some (jsToLower (clean r.Score_Current))) "zero"
  let Score_Previous := jsToLower (clean r.Score_Previous)
  let Summary_Current := clean r.Summary_Current
  let Links := clean r.Links
  let o := parseIntBase10 (clean r.Order)
  let Order := o.getD 9999
  if Team = "" ∨ Piece = "" then none
  else some { Team := Team, Piece := Piece, Include := Include,
              Header_Flag := Header_Flag, Score_Current := Score_Current,
              Score_Previous := Score_Previous, Summary_Current := Summary_Current,
              Links := Links, Order := Order }

/-- `loaded.map(normalizeRow).filter(Boolean)`: normalize every record and
drop the rejected (`null`) ones. -/
def normalizePipeline (rows : List Raw) : List Row :=
  rows.filterMap normalizeRow

/-- The fixed list of recognized section names (`SECTIONS`). -/
def SECTIONS : List String :=
  ["Climate Snapshot", "Chessboard", "Team No-Urgency", "Team Urgency"]

/-- The condition under which a row is stored as a section header:
`r.Header_Flag === "yes" && SECTIONS.includes(r.Team) && r.Piece.toLowerCase() === r.Team.toLowerCase()`. -/
def isHeaderMarker (r : Row) : Bool :=
  r.Header_Flag == "yes" && SECTIONS.contains r.Team
    && jsToLower r.Piece == jsToLower r.Team

/-- `headerByTeam[sec]` after the `rows.forEach` loop: the last row assigned,
i.e. the last row satisfying the header condition with `Team = sec`
(`null`, here `none`, when no such row exists). -/
def headerFor (rows : List Row) (sec : String) : Option Row :=
  rows.foldl (fun acc r => if isHeaderMarker r && r.Team == sec then some r else acc) none

/-- The filter feeding `piecesByTeam[sec]`:
`r.Header_Flag !== "yes" && r.Include === "yes" && SECTIONS.includes(r.Team)`,
collected into the bucket keyed by `r.Team`. -/
def piecesFilter (rows : List Row) (sec : String) : List Row :=
  rows.filter (fun r =>
    r.Header_Flag != "yes" && r.Include == "yes" && SECTIONS.contains r.Team && r.Team == sec)

/-- The sort comparator on rows, as a relation: the JS comparator returns
`a.Order - b.Order` when the orders differ and otherwise
`a.Piece.localeCompare(b.Piece)`; `rowLE a b` holds when the comparator
allows `a` at or before `b`.  `localeCompare` is modelled by the
lexicographic (code-point) order on strings. -/
def rowLE (a b : Row) : Prop :=
  a.Order < b.Order ∨ (a.Order = b.Order ∧ charsLE a.Piece.data b.Piece.data = true)

instance : DecidableRel rowLE := fun a b => by
  unfold rowLE; infer_instance

/-- The in-place `piecesByTeam[team].sort(comparator)`: JS `Array.sort` is a
stable sort consistent with the comparator; since `rowLE` is a decidable
total preorder, any stable sort produces the same list, modelled here by
stable insertion sort. -/
def sortPieces (l : List Row) : List Row := l.insertionSort rowLE

/-- A section's final ordered item list: the filtered bucket, sorted. -/
def piecesFor (rows : List Row) (sec : String) : List Row :=
  sortPieces (piecesFilter rows sec)

/-- Delimiter class of the `Links` split regex `[\s,]+`: a comma or a
whitespace character. -/
def isLinkDelim (c : Char) : Bool := c == ',' || c.isWhitespace

/-- The non-empty tokens of a `Links` value: JS
`String(val).split(/[\s,]+/).map(s => s.trim()).filter(Boolean)`.
Splitting at each delimiter character yields the same final list as the
regex split (which merely pre-collapses delimiter runs): the empty segments
produced between adjacent delimiters are removed by the `filter(Boolean)`
stage in either case. -/
def linkTokens (val : Option String) : List String :=
  match val with
  | none => []
  | some s =>
    if s = "" then []
    else ((jsSplit isLinkDelim s).map jsTrim).filter (fun t => t != "")

/-- The per-token body of `linkifyList`: try strict URL parsing (abstracted
as `parse`, returning the hostname on success); on success the label is the
hostname with one leading "www." stripped (`hostname.replace(/^www\./, "")`),
on failure (the `catch` branch) the raw token. -/
def linkLabel (parse : String → Option String) (u : String) : String × String :=
  match parse u with
  | some host =>
    (u, if ("www.".data).isPrefixOf host.data then String.mk (host.data.drop 4) else host)
  | none => (u, u)

/-- `linkifyList(val)`: `if (!val) return []`, then split, trim, drop empty
tokens, and map each token to its `(url, label)` pair. -/
def linkifyList (parse : String → Option String) (val : Option String) :
    List (String × String) :=
  match val with
  | none => []
  | some s =>
    if s = "" then []
    else (((jsSplit isLinkDelim s).map jsTrim).filter (fun t => t != "")).map
      (linkLabel parse)

/-- Accumulator of the `splitSnapshotTwoColumns` loop. -/
structure SplitAcc (α : Type) where
  left : List α
  right : List α
  lc : Nat
  rc : Nat

/-- One iteration of the `items.forEach` body: push left when `lc <= rc`,
else push right, bumping the corresponding counter. -/
def splitStep {α : Type} (st : SplitAcc α) (it : α) : SplitAcc α :=
  if st.lc ≤ st.rc then { st with left := st.left ++ [it], lc := st.lc + 1 }
  else { st with right := st.right ++ [it], rc := st.rc + 1 }

/-- `splitSnapshotTwoColumns(items)`: fold the loop body over the items
starting from empty columns and zero counters. -/
def splitSnapshotTwoColumns {α : Type} (items : List α) : List α × List α :=
  let st := items.foldl splitStep ⟨[], [], 0, 0⟩
  (st.left, st.right)

/-- The elements at even positions of a list (0, 2, 4, ...). -/
def evenSlots {α : Type} : List α → List α
  | [] => []
  | [a] => [a]
  | a :: _ :: t => a :: evenSlots t

/-- The elements at odd positions of a list (1, 3, 5, ...). -/
def oddSlots {α : Type} : List α → List α
  | [] => []
  | [_] => []
  | _ :: b :: t => b :: oddSlots t

/-- The observable outcome of fetching and CSV-parsing one candidate path:
HTTP success flag and status, the number of parse errors reported, and the
parsed records. -/
structure FetchOutcome where
  ok : Bool
  status : Nat
  parseErrors : Nat
  data : List Raw

/-- `fetchCsv(url)` given that outcome: throw `HTTP <status>` when the
response is not ok, throw `Parse error` when the parser reported errors,
otherwise return the parsed records. -/
def fetchCsv (o : FetchOutcome) : Except String (List Raw) :=
  if !o.ok then .error ("HTTP " ++ toString o.status)
  else if o.parseErrors != 0 then .error "Parse error"
  else .ok o.data

/-- The fixed candidate paths `CSV_PATHS`. -/
def CSV_PATHS : List String :=
  ["/climate_chess.csv", "/public/climate_chess.csv", "/data/climate_chess.csv"]

/-- The `for (const p of CSV_PATHS)` loop with `try { ... break } catch {}`:
attempt each path in order; on the first success return the data and the
path used; `none` when every attempt failed. -/
def loadFirst (env : String → FetchOutcome) : List String → Option (List Raw × String)
  | [] => none
  | p :: rest =>
    match fetchCsv (env p) with
    | .ok d => some (d, p)
    | .error _ => loadFirst env rest

/-- The load step of the `Infographic` effect: on success the parsed records
and the path used, otherwise the thrown error message that reaches
`setError`. -/
def loadData (env : String → FetchOutcome) : Except String (List Raw × String) :=
  match loadFirst env CSV_PATHS with
  | some (d, w) => .ok (d, w)
  | none => .error "Could not load climate_chess.csv from known paths."

/-! Concrete sample records used by the witness theorems. -/

/-- A well-formed record: explicit order, blank previous score. -/
def rawPawn : Raw :=
  { Team := some "Chessboard", Piece := some "Pawn", Order := some "1",
    Include := some "yes", Score_Current := some "plus-1",
    Score_Previous := some "", Header_Flag := some "no" }

/-- The canonical row `normalizeRow` produces for `rawPawn`. -/
def rowPawn : Row :=
  { Team := "Chessboard", Piece := "Pawn", Include := "yes", Header_Flag := "no",
    Score_Current := "plus-1", Score_Previous := "", Summary_Current := "",
    Links := "", Order := 1 }

/-- A junk record: `Piece` blank after trimming. -/
def rawJunk : Raw :=
  { Team := some "Chessboard", Piece := some " ", Order := some "2" }

/-- A record with a blank `Include` field. -/
def rawBlankInclude : Raw :=
  { Team := some "Chessboard", Piece := some "Rook", Include := some "" }

/-- The canonical row for `rawBlankInclude`. -/
def rowBlankInclude : Row :=
  { Team := "Chessboard", Piece := "Rook", Include := "yes", Header_Flag := "no",
    Score_Current := "zero", Score_Previous := "", Summary_Current := "",
    Links := "", Order := 9999 }

/-- A record with an explicit numeric order of 10000. -/
def rawBigOrder : Raw :=
  { Team := some "Chessboard", Piece := some "b", Order := some "10000",
    Include := some "yes", Header_Flag := some "no" }

/-- A record whose order field does not parse as an integer. -/
def rawNoOrder : Raw :=
  { Team := some "Chessboard", Piece := some "a", Order := some "abc",
    Include := some "yes", Header_Flag := some "no" }

/-- A header marker row for the Chessboard section. -/
def rowChessHeader : Row :=
  { Team := "Chessboard", Piece := "chessboard", Include := "yes", Header_Flag := "yes",
    Score_Current := "zero", Score_Previous := "", Summary_Current := "",
    Links := "", Order := 0 }

/-- A row whose team is not a recognized section name. -/
def rowUnknownTeam : Row :=
  { Team := "Unknown Team", Piece := "X", Include := "yes", Header_Flag := "no",
    Score_Current := "zero", Score_Previous := "", Summary_Current := "",
    Links := "", Order := 1 }

/-- Two sorted rows sharing a section, used by witnesses. -/
def rowEarly : Row :=
  { Team := "Chessboard", Piece := "a", Include := "yes", Header_Flag := "no",
    Score_Current := "zero", Score_Previous := "", Summary_Current := "",
    Links := "", Order := 5 }

/-- A row carrying the sentinel order 9999. -/
def rowSentinel : Row :=
  { Team := "Chessboard", Piece := "b", Include := "yes", Header_Flag := "no",
    Score_Current := "zero", Score_Previous := "", Summary_Current := "",
    Links := "", Order := 9999 }

/-- A fetch environment in which only the second candidate path succeeds. -/
def envSecondOk : String → FetchOutcome := fun p =>
  if p = "/public/climate_chess.csv" then ⟨true, 200, 0, [rawPawn]⟩
  else ⟨false, 404, 0, []⟩

/-! Helper lemmas. -/

theorem charsLE_total : ∀ as bs : List Char, charsLE as bs = true ∨ charsLE bs as = true
  | [], _ => Or.inl rfl
  | _ :: _, [] => Or.inr rfl
  | a :: as, b :: bs => by
    rcases lt_trichotomy a b with h | h | h
    · left; simp [charsLE, h]
    · subst h
      rcases charsLE_total as bs with ih | ih
      · left; simp [charsLE, lt_irrefl, ih]
      · right; simp [charsLE, lt_irrefl, ih]
    · right; simp [charsLE, h]

theorem charsLE_trans :
    ∀ as bs cs : List Char,
      charsLE as bs = true → charsLE bs cs = true → charsLE as cs = true := by
  intro as
  induction as with
  | nil => intro bs cs _ _; rfl
  | cons a as ih =>
    intro bs cs h1 h2
    cases bs with
    | nil => simp [charsLE] at h1
    | cons b bs =>
      cases cs with
      | nil => simp [charsLE] at h2
      | cons c cs =>
        simp only [charsLE] at h1 h2 ⊢
        rcases lt_trichotomy a b with hab | hab | hab
        · rcases lt_trichotomy b c with hbc | hbc | hbc
          · have hac : a < c := lt_trans hab hbc
            simp [hac]
          · subst hbc; simp [hab]
          · rw [if_neg (asymm hbc), if_pos hbc] at h2; exact absurd h2 (by simp)
        · subst hab
          rw [if_neg (lt_irrefl a), if_neg (lt_irrefl a)] at h1
          rcases lt_trichotomy a c with hac | hac | hac
          · simp [hac]
          · subst hac
            rw [if_neg (lt_irrefl a), if_neg (lt_irrefl a)] at h2 ⊢
            exact ih bs cs h1 h2
          · rw [if_neg (asymm hac), if_pos hac] at h2; exact absurd h2 (by simp)
        · rw [if_neg (asymm hab), if_pos hab] at h1; exact absurd h1 (by simp)

instance : IsTotal Row rowLE :=
  ⟨fun a b => by
    unfold rowLE
    rcases lt_trichotomy a.Order b.Order with h | h | h
    · exact Or.inl (Or.inl h)
    · rcases charsLE_total a.Piece.data b.Piece.data with hp | hp
      · exact Or.inl (Or.inr ⟨h, hp⟩)
      · exact Or.inr (Or.inr ⟨h.symm, hp⟩)
    · exact Or.inr (Or.inl h)⟩

instance : IsTrans Row rowLE :=
  ⟨fun a b c hab hbc => by
    unfold rowLE at *
    rcases hab with h1 | ⟨e1, p1⟩ <;> rcases hbc with h2 | ⟨e2, p2⟩
    · exact Or.inl (lt_trans h1 h2)
    · exact Or.inl (lt_of_lt_of_eq h1 e2)
    · exact Or.inl (lt_of_eq_of_lt e1 h2)
    · exact Or.inr ⟨e1.trans e2, charsLE_trans _ _ _ p1 p2⟩⟩

theorem sortPieces_sorted (l : List Row) : List.Sorted rowLE (sortPieces l) :=
  List.sorted_insertionSort rowLE l

theorem sortPieces_perm (l : List Row) : (sortPieces l).Perm l :=
  List.perm_insertionSort rowLE l

theorem sortPieces_eq_of_sorted {l : List Row} (h : List.Sorted rowLE l) :
    sortPieces l = l :=
  h.insertionSort_eq

theorem normalizeRow_eq_none_iff (r : Raw) :
    normalizeRow r = none ↔ (clean r.Team = "" ∨ clean r.Piece = "") := by
  unfold normalizeRow
  by_cases h : clean r.Team = "" ∨ clean r.Piece = "" <;> simp [h]

theorem normalizePipeline_length :
    ∀ rows : List Raw,
      (normalizePipeline rows).length =
        rows.length -
          (rows.filter (fun r => clean r.Team == "" || clean r.Piece == "")).length := by
  intro rows
  induction rows with
  | nil => rfl
  | cons r t ih =>
    have hle := List.length_filter_le
      (fun r => clean r.Team == "" || clean r.Piece == "") t
    simp only [normalizePipeline] at ih ⊢
    by_cases h : clean r.Team = "" ∨ clean r.Piece = ""
    · have hn : normalizeRow r = none := (normalizeRow_eq_none_iff r).mpr h
      have hb : (clean r.Team == "" || clean r.Piece == "") = true := by
        rcases h with h | h <;> simp [h]
      rw [List.filterMap_cons, hn, List.filter_cons, hb]
      simp only [if_true, List.length_cons]
      omega
    · cases hnr : normalizeRow r with
      | none => exact absurd ((normalizeRow_eq_none_iff r).mp hnr) h
      | some row =>
        have hb : (clean r.Team == "" || clean r.Piece == "") = false := by
          push_neg at h
          simp [h.1, h.2]
        rw [List.filterMap_cons, hnr, List.filter_cons, hb]
        simp only [Bool.false_eq_true, if_false, List.length_cons]
        omega

theorem headerFor_mem :
    ∀ (l : List Row) (sec : String) (acc : Option Row) (r : Row),
      l.foldl (fun acc x => if isHeaderMarker x && x.Team == sec then some x else acc)
          acc = some r →
      acc = some r ∨ (r ∈ l ∧ isHeaderMarker r = true ∧ r.Team = sec) := by
  intro l
  induction l with
  | nil => intro sec acc r h; exact Or.inl h
  | cons x t ih =>
    intro sec acc r h
    simp only [List.foldl_cons] at h
    rcases ih sec _ r h with hstep | ⟨hm, hp, ht⟩
    · by_cases hc : (isHeaderMarker x && x.Team == sec) = true
      · rw [if_pos hc] at hstep
        have hx : x = r := by injection hstep
        subst hx
        simp only [Bool.and_eq_true, beq_iff_eq] at hc
        exact Or.inr ⟨List.mem_cons_self x t, hc.1, hc.2⟩
      · rw [if_neg hc] at hstep
        exact Or.inl hstep
    · exact Or.inr ⟨List.mem_cons_of_mem x hm, hp, ht⟩

theorem splitFold_eq {α : Type} :
    ∀ (l left right : List α) (n : Nat),
      l.foldl splitStep ⟨left, right, n, n⟩ =
        ⟨left ++ evenSlots l, right ++ oddSlots l,
          n + (evenSlots l).length, n + (oddSlots l).length⟩
  | [], left, right, n => by simp [evenSlots, oddSlots]
  | [a], left, right, n => by
    simp [evenSlots, oddSlots, splitStep]
  | a :: b :: t, left, right, n => by
    have ih := splitFold_eq t (left ++ [a]) (right ++ [b]) (n + 1)
    simp only [List.foldl_cons]
    rw [show splitStep (⟨left, right, n, n⟩ : SplitAcc α) a
        = ⟨left ++ [a], right, n + 1, n⟩ by simp [splitStep]]
    rw [show splitStep (⟨left ++ [a], right, n + 1, n⟩ : SplitAcc α) b
        = ⟨left ++ [a], right ++ [b], n + 1, n + 1⟩ by
      simp [splitStep, Nat.lt_irrefl]]
    rw [ih]
    simp only [evenSlots, oddSlots, List.append_assoc, List.singleton_append,
      List.length_cons, SplitAcc.mk.injEq]
    exact ⟨trivial, trivial, by omega, by omega⟩

theorem evenSlots_getElem {α : Type} :
    ∀ (l : List α) (i : Nat), (evenSlots l)[i]? = l[2 * i]?
  | [], i => by simp [evenSlots]
  | [a], 0 => by simp [evenSlots]
  | [a], j + 1 => by
    simp [evenSlots, show 2 * (j + 1) = 2 * j + 1 + 1 by ring]
  | a :: b :: t, 0 => by simp [evenSlots]
  | a :: b :: t, j + 1 => by
    have ih := evenSlots_getElem t j
    simp only [evenSlots, List.getElem?_cons_succ,
      show 2 * (j + 1) = 2 * j + 1 + 1 by ring]
    exact ih

theorem oddSlots_getElem {α : Type} :
    ∀ (l : List α) (i : Nat), (oddSlots l)[i]? = l[2 * i + 1]?
  | [], i => by simp [oddSlots]
  | [a], 0 => by simp [oddSlots]
  | [a], j + 1 => by
    simp [oddSlots, show 2 * (j + 1) + 1 = 2 * j + 1 + 1 + 1 by ring]
  | a :: b :: t, 0 => by simp [oddSlots]
  | a :: b :: t, j + 1 => by
    have ih := oddSlots_getElem t j
    simp only [oddSlots, List.getElem?_cons_succ,
      show 2 * (j + 1) + 1 = 2 * j + 1 + 1 + 1 by ring]
    exact ih

theorem perm_evenSlots_append {α : Type} :
    ∀ l : List α, l.Perm (evenSlots l ++ oddSlots l)
  | [] => by simp [evenSlots, oddSlots]
  | [a] => by simp [evenSlots, oddSlots]
  | a :: b :: t => by
    have ih := perm_evenSlots_append t
    simp only [evenSlots, oddSlots, List.cons_append]
    exact (((ih.cons b).trans List.perm_middle.symm).cons a)

theorem evenSlots_length {α : Type} :
    ∀ l : List α, (evenSlots l).length = (l.length + 1) / 2
  | [] => by simp [evenSlots]
  | [a] => by simp [evenSlots]
  | a :: b :: t => by
    simp only [evenSlots, List.length_cons, evenSlots_length t]
    omega

theorem oddSlots_length {α : Type} :
    ∀ l : List α, (oddSlots l).length = l.length / 2
  | [] => by simp [oddSlots]
  | [a] => by simp [oddSlots]
  | a :: b :: t => by
    simp only [oddSlots, List.length_cons, oddSlots_length t]
    omega

/-! Claim theorems. -/

/-- C1: the claim states that for every score level `cur`, the delta
computation applied to `(cur, "")` returns 0 (and hence changed = false).
The code disagrees: the nullish fallback `prev ?? cur` does not fire on the
empty string, so `SCORE_VALUE[""] ?? 0` makes the previous value 0 and the
delta equals the current score value.  At `cur = "plus-1"`, `prev = ""` the
code yields 1, not 0, while a genuinely missing (`null`/`undefined`)
previous score does yield 0 as the fallback intends. -/
theorem computeDelta_empty_prev_not_zero :
    computeDelta (some "plus-1") (some "") = 1 ∧
    computeDelta (some "plus-1") none = 0 := by
  constructor <;> rfl

/-- C7: the delta computation satisfies `Delta(cur, cur) = 0` and is
antisymmetric, `Delta(a, b) = -Delta(b, a)`, for all score-level strings
(in particular the seven valid levels), computed via the fixed ordinal
mapping plus-3 to 3 down to minus-3 to -3 with unknown values mapping
to 0. -/
theorem computeDelta_self_zero_antisymm :
    ∀ a b : String,
      computeDelta (some a) (some a) = 0 ∧
      computeDelta (some a) (some b) = (SCORE_VALUE a).getD 0 - (SCORE_VALUE b).getD 0 ∧
      computeDelta (some a) (some b) = - computeDelta (some b) (some a) ∧
      SCORE_VALUE "plus-3" = some 3 ∧ SCORE_VALUE "plus-2" = some 2 ∧
      SCORE_VALUE "plus-1" = some 1 ∧ SCORE_VALUE "zero" = some 0 ∧
      SCORE_VALUE "minus-1" = some (-1) ∧ SCORE_VALUE "minus-2" = some (-2) ∧
      SCORE_VALUE "minus-3" = some (-3) := by
  have h : ∀ x y : String,
      computeDelta (some x) (some y) = (SCORE_VALUE x).getD 0 - (SCORE_VALUE y).getD 0 :=
    fun x y => rfl
  intro a b
  refine ⟨?_, h a b, ?_, rfl, rfl, rfl, rfl, rfl, rfl, rfl⟩
  · rw [h a a]; omega
  · rw [h a b, h b a]; omega

/-- C10: the two-column snapshot split sends the items at even positions to
the left column and the items at odd positions to the right column, each in
input order; together the columns are a permutation of the input, the left
column has ceiling(n/2) items and the right floor(n/2), so the sizes differ
by at most one with the left column receiving the extra item. -/
theorem splitSnapshot_partition {α : Type} :
    ∀ l : List α,
      splitSnapshotTwoColumns l = (evenSlots l, oddSlots l) ∧
      (∀ i : Nat, (evenSlots l)[i]? = l[2 * i]? ∧ (oddSlots l)[i]? = l[2 * i + 1]?) ∧
      l.Perm (evenSlots l ++ oddSlots l) ∧
      (evenSlots l).length = (l.length + 1) / 2 ∧
      (oddSlots l).length = l.length / 2 := by
  intro l
  refine ⟨?_, fun i => ⟨evenSlots_getElem l i, oddSlots_getElem l i⟩,
    perm_evenSlots_append l, evenSlots_length l, oddSlots_length l⟩
  unfold splitSnapshotTwoColumns
  rw [splitFold_eq l [] [] 0]
  simp

/-- C2: normalization rejects a record exactly when its Team or Piece field
is empty after trimming; every record that survives contributes its
canonical row to the output, and the output size is the input size minus
the number of records missing Team or Piece after trim. -/
theorem normalize_excludes_exactly_blank :
    (∀ r : Raw, normalizeRow r = none ↔ (clean r.Team = "" ∨ clean r.Piece = "")) ∧
    (∀ rows : List Raw,
      (normalizePipeline rows).length =
        rows.length -
          (rows.filter (fun r => clean r.Team == "" || clean r.Piece == "")).length) ∧
    (∀ (rows : List Raw) (r : Raw) (row : Row),
      r ∈ rows → normalizeRow r = some row → row ∈ normalizePipeline rows) := by
  refine ⟨normalizeRow_eq_none_iff, normalizePipeline_length, ?_⟩
  intro rows r row hr hrow
  simp only [normalizePipeline, List.mem_filterMap]
  exact ⟨r, hr, hrow⟩

/-- Witness for C2 at a concrete input: the well-formed record of the pair
survives into the normalized output. -/
theorem normalize_excludes_exactly_blank_witness :
    rowPawn ∈ normalizePipeline [rawPawn, rawJunk] :=
  normalize_excludes_exactly_blank.2.2 [rawPawn, rawJunk] rawPawn rowPawn
    (by decide) (by decide)

/-- C4: the normalized Include field is "yes" exactly when the raw Include
field is blank (missing or the empty string, which JS `r.Include || "yes"`
replaces by "yes") or passes the tolerant case-insensitive trim-and-match
against yes, y, true, 1 (the `yesish` helper). -/
theorem include_blank_defaults_yes :
    ∀ (r : Raw) (row : Row), normalizeRow r = some row →
      (row.Include = "yes" ↔
        (r.Include = none ∨ r.Include = some "" ∨ yesish r.Include = true)) := by
  intro r row h
  unfold normalizeRow at h
  by_cases hid : clean r.Team = "" ∨ clean r.Piece = ""
  · simp [hid] at h
  · simp only [hid, if_false] at h
    have hInc : row.Include =
        (if yesish (some (jsOr r.Include "yes")) then "yes" else "no") := by
      have := Option.some.inj h
      rw [← this]
    rcases hv : r.Include with _ | s
    · rw [hv] at hInc
      simp only [jsOr] at hInc
      rw [hInc, if_pos (by decide)]
      simp
    · by_cases hs : s = ""
      · subst hs
        rw [hv] at hInc
        simp only [jsOr, if_pos rfl] at hInc
        rw [hInc, if_pos (by decide)]
        simp
      · rw [hv] at hInc
        simp only [jsOr, if_neg hs] at hInc
        cases hy : yesish (some s) with
        | true =>
          rw [hInc, if_pos hy]
          simp [hv, hy]
        | false =>
          rw [hInc, if_neg (by simp [hy])]
          simp [hv, hy, hs]

/-- Witness for C4 at a concrete input: a record with a blank Include field
is normalized to Include = "yes". -/
theorem include_blank_defaults_yes_witness :
    rowBlankInclude.Include = "yes" ↔
      (rawBlankInclude.Include = none ∨ rawBlankInclude.Include = some "" ∨
        yesish rawBlankInclude.Include = true) :=
  include_blank_defaults_yes rawBlankInclude rowBlankInclude (by decide)

/-- C5: link extraction is total for every URL parser and every input:
missing or empty input yields the empty sequence, the output is exactly the
map of the label rule over the non-empty whitespace/comma-delimited tokens
(so each token yields exactly one pair, in input order, and the pair's url
component is the raw token), and the label is the parsed hostname with one
leading "www." stripped on parser success and the raw token on parser
failure. -/
theorem linkify_total_tokenwise :
    ∀ (parse : String → Option String) (val : Option String),
      linkifyList parse val = (linkTokens val).map (linkLabel parse) ∧
      (linkifyList parse val).length = (linkTokens val).length ∧
      (∀ i : Nat,
        (linkifyList parse val)[i]? = ((linkTokens val)[i]?).map (linkLabel parse)) ∧
      (∀ u : String, (linkLabel parse u).1 = u) ∧
      (∀ u : String, (linkLabel parse u).2 =
        (match parse u with
          | some host =>
            if ("www.".data).isPrefixOf host.data then String.mk (host.data.drop 4)
            else host
          | none => u)) ∧
      linkifyList parse none = [] ∧ linkifyList parse (some "") = [] := by
  intro parse val
  have heq : linkifyList parse val = (linkTokens val).map (linkLabel parse) := by
    cases val with
    | none => rfl
    | some s =>
      by_cases hs : s = "" <;> simp [linkifyList, linkTokens, hs]
  refine ⟨heq, by rw [heq]; simp, ?_, ?_, ?_, rfl, by simp [linkifyList]⟩
  · intro i
    rw [heq]
    simp [List.getElem?_map]
  · intro u
    unfold linkLabel
    cases parse u <;> simp
  · intro u
    unfold linkLabel
    cases parse u <;> simp

/-- C6: within each section the item rows are sorted by the comparator
(ascending Order, ties broken by lexicographic comparison of Piece), the
sorted list is a permutation of the filtered bucket, and the sort is
deterministic and stable on equal keys: sorting an already-sorted list
leaves it unchanged. -/
theorem section_sort_sorted_stable :
    ∀ (rows : List Row) (sec : String),
      List.Sorted rowLE (piecesFor rows sec) ∧
      (piecesFor rows sec).Perm (piecesFilter rows sec) ∧
      (∀ l : List Row, List.Sorted rowLE l → sortPieces l = l) := by
  intro rows sec
  exact ⟨sortPieces_sorted _, sortPieces_perm _,
    fun l h => sortPieces_eq_of_sorted h⟩

/-- Witness for C6 at a concrete input: re-sorting a two-row section that
is already in comparator order returns it unchanged. -/
theorem section_sort_sorted_stable_witness :
    sortPieces [rowEarly, rowSentinel] = [rowEarly, rowSentinel] :=
  (section_sort_sorted_stable [] "").2.2 [rowEarly, rowSentinel] (by decide)

/-- C3 (amended): every canonical row's Order is the integer parse of the
raw Order field when that parse succeeds and the sentinel 9999 otherwise;
and within a section's sorted list every row carrying the sentinel 9999
comes after every row whose Order is strictly below 9999.  (The original
claim, that an unparsable-Order row sorts after EVERY explicitly ordered
row, fails when an explicit Order is 9999 or larger; see the
counterexample.) -/
theorem order_parse_sentinel_sort :
    (∀ (r : Raw) (row : Row), normalizeRow r = some row →
      row.Order = (parseIntBase10 (clean r.Order)).getD 9999) ∧
    (∀ (rows : List Row) (sec : String) (i j : Nat)
      (hi : i < (piecesFor rows sec).length) (hj : j < (piecesFor rows sec).length),
      ((piecesFor rows sec).get ⟨i, hi⟩).Order = 9999 →
      ((piecesFor rows sec).get ⟨j, hj⟩).Order < 9999 → j < i) := by
  constructor
  · intro r row h
    unfold normalizeRow at h
    by_cases hid : clean r.Team = "" ∨ clean r.Piece = ""
    · simp [hid] at h
    · simp only [hid, if_false] at h
      have := Option.some.inj h
      rw [← this]
  · intro rows sec i j hi hj h9 hlt
    by_contra hji
    push_neg at hji
    have hs : List.Sorted rowLE (piecesFor rows sec) := sortPieces_sorted _
    rcases Nat.lt_or_ge i j with hij | hij
    · have hrel := hs.rel_get_of_lt (a := ⟨i, hi⟩) (b := ⟨j, hj⟩) hij
      rcases hrel with h | ⟨h, _⟩ <;> omega
    · have : i = j := Nat.le_antisymm hji hij
      subst this
      omega

/-- Counterexample to C3 as stated: in one section, a row whose raw Order
does not parse (sentinel 9999) sorts BEFORE a row with the explicit numeric
Order 10000, so an unparsable-Order row does not sort after every
explicitly ordered row. -/
theorem order_sentinel_not_last_counterexample :
    parseIntBase10 (clean rawNoOrder.Order) = none ∧
    parseIntBase10 (clean rawBigOrder.Order) = some 10000 ∧
    (piecesFor (normalizePipeline [rawBigOrder, rawNoOrder]) "Chessboard").map Row.Order
      = [9999, 10000] := by
  refine ⟨by decide, by decide, by decide⟩

/-- Witness for C3 (amended) at concrete inputs: a parsed row's Order equals
its integer parse, and in a concrete sorted section the sentinel row sits
strictly after the explicitly ordered row. -/
theorem order_parse_sentinel_sort_witness :
    rowPawn.Order = (parseIntBase10 (clean rawPawn.Order)).getD 9999 ∧ (0 : Nat) < 1 :=
  ⟨order_parse_sentinel_sort.1 rawPawn rowPawn (by decide),
    order_parse_sentinel_sort.2 [rowSentinel, rowEarly] "Chessboard" 1 0
      (by decide) (by decide) (by decide) (by decide)⟩

/-- C8: a section's header slot holds at most one row, selected only from
rows with Header_Flag = yes whose Team exactly equals the section name
(which must be a recognized section) and whose Piece case-insensitively
equals Team; and a row whose Team is not a recognized section name is never
a header and never in any section's item list. -/
theorem header_unique_and_unknown_excluded :
    ∀ (rows : List Row) (sec : String) (r : Row),
      (∀ r2 : Row, headerFor rows sec = some r → headerFor rows sec = some r2 → r = r2) ∧
      (headerFor rows sec = some r →
        r ∈ rows ∧ r.Header_Flag = "yes" ∧ SECTIONS.contains r.Team = true ∧
          jsToLower r.Piece = jsToLower r.Team ∧ r.Team = sec) ∧
      (SECTIONS.contains r.Team = false →
        headerFor rows sec ≠ some r ∧ r ∉ piecesFor rows sec) := by
  intro rows sec r
  have hsel : headerFor rows sec = some r →
      r ∈ rows ∧ r.Header_Flag = "yes" ∧ SECTIONS.contains r.Team = true ∧
        jsToLower r.Piece = jsToLower r.Team ∧ r.Team = sec := by
    intro h
    rcases headerFor_mem rows sec none r h with hnone | ⟨hm, hp, ht⟩
    · exact absurd hnone (by simp)
    · simp only [isHeaderMarker, Bool.and_eq_true, beq_iff_eq] at hp
      exact ⟨hm, hp.1.1, hp.1.2, hp.2, ht⟩
  refine ⟨?_, hsel, ?_⟩
  · intro r2 h1 h2
    rw [h1] at h2
    exact Option.some.inj h2
  · intro hnot
    constructor
    · intro h
      rw [(hsel h).2.2.1] at hnot
      exact absurd hnot (by simp)
    · intro hmem
      have hmem2 : r ∈ piecesFilter rows sec :=
        ((sortPieces_perm (piecesFilter rows sec)).mem_iff).mp hmem
      have hcond := List.of_mem_filter hmem2
      simp only [Bool.and_eq_true, beq_iff_eq] at hcond
      rw [hcond.1.2] at hnot
      exact absurd hnot (by simp)

/-- Witness for C8 at concrete inputs: the marker row becomes the
Chessboard header (with all selection properties), while the unknown-team
row is neither a header nor in the item list. -/
theorem header_unique_and_unknown_excluded_witness :
    (rowChessHeader ∈ [rowChessHeader, rowUnknownTeam] ∧
      rowChessHeader.Header_Flag = "yes" ∧
      SECTIONS.contains rowChessHeader.Team = true ∧
      jsToLower rowChessHeader.Piece = jsToLower rowChessHeader.Team ∧
      rowChessHeader.Team = "Chessboard") ∧
    (headerFor [rowChessHeader, rowUnknownTeam] "Chessboard" ≠ some rowUnknownTeam ∧
      rowUnknownTeam ∉ piecesFor [rowChessHeader, rowUnknownTeam] "Chessboard") :=
  ⟨(header_unique_and_unknown_excluded [rowChessHeader, rowUnknownTeam] "Chessboard"
      rowChessHeader).2.1 (by decide),
    (header_unique_and_unknown_excluded [rowChessHeader, rowUnknownTeam] "Chessboard"
      rowUnknownTeam).2.2 (by decide)⟩

/-- C9: a single fetch attempt fails exactly on a non-success HTTP status or
a CSV parse error; the loader tries the candidate paths strictly in order
and returns the parsed records and the path used from the first candidate
that succeeds, every earlier candidate having failed; and the load step
reports an error to the caller exactly when every candidate path fails. -/
theorem loader_first_success :
    ∀ env : String → FetchOutcome,
      (∀ o : FetchOutcome,
        (∃ e, fetchCsv o = .error e) ↔ (o.ok = false ∨ o.parseErrors ≠ 0)) ∧
      (∀ paths : List String,
        (loadFirst env paths = none ↔ ∀ p ∈ paths, ∃ e, fetchCsv (env p) = .error e)) ∧
      (∀ (paths : List String) (d : List Raw) (p : String),
        loadFirst env paths = some (d, p) →
          ∃ pre post, paths = pre ++ p :: post ∧
            (∀ q ∈ pre, ∃ e, fetchCsv (env q) = .error e) ∧
            fetchCsv (env p) = .ok d) ∧
      ((∃ e, loadData env = .error e) ↔
        ∀ p ∈ CSV_PATHS, ∃ e, fetchCsv (env p) = .error e) := by
  intro env
  have hfail : ∀ o : FetchOutcome,
      (∃ e, fetchCsv o = .error e) ↔ (o.ok = false ∨ o.parseErrors ≠ 0) := by
    intro o
    unfold fetchCsv
    cases hok : o.ok with
    | false => simp
    | true =>
      by_cases hpe : o.parseErrors = 0 <;> simp [hpe]
  have hnone : ∀ paths : List String,
      (loadFirst env paths = none ↔ ∀ p ∈ paths, ∃ e, fetchCsv (env p) = .error e) := by
    intro paths
    induction paths with
    | nil => simp [loadFirst]
    | cons p rest ih =>
      cases hfc : fetchCsv (env p) with
      | ok d => simp [loadFirst, hfc]
      | error e =>
        simp only [loadFirst, hfc, List.mem_cons]
        constructor
        · intro h q hq
          rcases hq with rfl | hq
          · exact ⟨e, hfc⟩
          · exact (ih.mp h) q hq
        · intro h
          exact ih.mpr (fun q hq => h q (Or.inr hq))
  have hsome : ∀ (paths : List String) (d : List Raw) (p : String),
      loadFirst env paths = some (d, p) →
        ∃ pre post, paths = pre ++ p :: post ∧
          (∀ q ∈ pre, ∃ e, fetchCsv (env q) = .error e) ∧
          fetchCsv (env p) = .ok d := by
    intro paths
    induction paths with
    | nil => intro d p h; exact absurd h (by simp [loadFirst])
    | cons q rest ih =>
      intro d p h
      cases hfc : fetchCsv (env q) with
      | ok d2 =>
        rw [loadFirst, hfc] at h
        have hdp := Option.some.inj h
        obtain ⟨rfl, rfl⟩ : d2 = d ∧ q = p := ⟨congrArg Prod.fst hdp, congrArg Prod.snd hdp⟩
        exact ⟨[], rest, rfl, by simp, hfc⟩
      | error e =>
        rw [loadFirst, hfc] at h
        obtain ⟨pre, post, rfl, hpre, hok⟩ := ih d p h
        refine ⟨q :: pre, post, rfl, ?_, hok⟩
        intro x hx
        rcases List.mem_cons.mp hx with rfl | hx
        · exact ⟨e, hfc⟩
        · exact hpre x hx
  refine ⟨hfail, hnone, hsome, ?_⟩
  unfold loadData
  cases hl : loadFirst env CSV_PATHS with
  | none => simp [← hnone CSV_PATHS, hl]
  | some dw => simp [← hnone CSV_PATHS, hl]

/-- Witness for C9 at a concrete input: with an environment in which only
the second candidate path succeeds, the loader returns that path, the
earlier candidate having failed. -/
theorem loader_first_success_witness :
    ∃ pre post, CSV_PATHS = pre ++ "/public/climate_chess.csv" :: post ∧
      (∀ q ∈ pre, ∃ e, fetchCsv (envSecondOk q) = .error e) ∧
      fetchCsv (envSecondOk "/public/climate_chess.csv") = .ok [rawPawn] :=
  (loader_first_success envSecondOk).2.2.1 CSV_PATHS [rawPawn]
    "/public/climate_chess.csv" (by decide)

end ClimateChess
